import Mathlib

/-!
Verification of the thread scheduler of a small teaching kernel
(threads/thread.c, threads/thread.h, devices/timer.c).

The scheduler state is embedded with value semantics: the C code keeps
threads on intrusive lists through their `elem` member and mutates them
through pointers; here a queue holds `Thread` values, and a pointer write
that the C code performs after inserting a thread into a queue (for
example `t->status = THREAD_READY` right after `list_insert_ordered`)
is reflected by inserting the already-updated value.  Interrupt masking
(`intr_disable` / `intr_set_level`) is not represented: on the single
core it only makes each operation atomic, which value-level functions
are by construction.  Fatal `ASSERT`s that claims talk about are
modelled by `Option`: `none` is a contract violation that panics the
kernel.
-/

set_option maxHeartbeats 1000000

/-- Thread lifecycle states, from `enum thread_status` in threads/thread.h. -/
inductive thread_status : Type
  | THREAD_RUNNING
  | THREAD_READY
  | THREAD_BLOCKED
  | THREAD_DYING
deriving DecidableEq

open thread_status

/-- Magic canary value written into every thread, from thread.c. -/
def THREAD_MAGIC : Nat := 0xcd6abf4b

/-- Lowest priority, from thread.h. -/
def PRI_MIN : Int := 0

/-- Default priority, from thread.h. -/
def PRI_DEFAULT : Int := 31

/-- Highest priority, from thread.h. -/
def PRI_MAX : Int := 63

/-- Error sentinel returned by thread_create on failure, from thread.h. -/
def TID_ERROR : Int := -1

/-- A kernel thread (`struct thread` in thread.h).  The saved register
frame `tf` is opaque machine state and is not represented; `block` is the
address of the 4 kB page that backs the struct and its stack, which in C
is the struct pointer itself. -/
structure Thread where
  tid : Int
  status : thread_status
  name : String
  priority : Int
  wakeup_tick : Int
  magic : Nat
  block : Nat
deriving DecidableEq

/-- The scheduler's global state, from the statics at the top of thread.c:
`ready_list`, `sleep_list`, `destruction_req`, the running thread, the
idle and initial threads, and the tid counter.  `free_pages` models the
page allocator's pool of available 4 kB blocks (`palloc_get_page` /
`palloc_free_page`); `yield_on_return` models the interrupt system's
deferred-yield flag set by `intr_yield_on_return`. -/
structure KState where
  current : Thread
  ready_list : List Thread
  sleep_list : List Thread
  destruction_req : List Thread
  free_pages : List Nat
  next_tid : Int
  idle : Thread
  initial_block : Nat
  yield_on_return : Bool
  thread_ticks : Nat
deriving DecidableEq

/-- Modelled from the spec: the generic ordered-insertion primitive of
the kernel list library (`list_insert_ordered` in lib/kernel/list.c, a
file not under src/).  Per the spec's Ordered Wait List component, the
element is inserted before the first existing element that it compares
strictly less than, so among elements comparing equal it is placed after
all of them (FIFO). -/
def list_insert_ordered (less : Thread → Thread → Bool) (x : Thread) :
    List Thread → List Thread
  | [] => [x]
  | y :: ys =>
    if less x y then x :: y :: ys else y :: list_insert_ordered less x ys

/-- `thread_prio_cmp` from thread.c: true when the first thread has
strictly higher priority, so higher priority sorts to the front. -/
def thread_prio_cmp (x y : Thread) : Bool :=
  decide (y.priority < x.priority)

/-- `thread_wakeup_cmp` from thread.c: the earlier wakeup tick is
smaller; on equal ticks the higher priority goes first. -/
def thread_wakeup_cmp (x y : Thread) : Bool :=
  if x.wakeup_tick ≠ y.wakeup_tick then decide (x.wakeup_tick < y.wakeup_tick)
  else decide (y.priority < x.priority)

/-- `init_thread` from thread.c: zeroes the struct, then sets status
`THREAD_BLOCKED`, the name, the priority and the magic canary.  The
fatal `ASSERT (PRI_MIN <= priority && priority <= PRI_MAX)` is the
`none` case. -/
def init_thread (page : Nat) (name : String) (priority : Int) : Option Thread :=
  if PRI_MIN ≤ priority ∧ priority ≤ PRI_MAX then
    some { tid := 0, status := THREAD_BLOCKED, name := name,
           priority := priority, wakeup_tick := 0, magic := THREAD_MAGIC,
           block := page }
  else none

/-- `thread_unblock` from thread.c: `ASSERT (t->status == THREAD_BLOCKED)`
is the `none` case; otherwise the thread is inserted into the ready list
by `thread_prio_cmp` order and its status becomes `THREAD_READY` (the C
status write lands on the inserted node through the `elem` pointer). -/
def thread_unblock (t : Thread) (st : KState) : Option KState :=
  if t.status = THREAD_BLOCKED then
    let r := list_insert_ordered thread_prio_cmp
      { t with status := THREAD_READY } st.ready_list
    some { st with ready_list := r }
  else none

/-- `next_thread_to_run` from thread.c: pop the front of the ready list,
or the idle thread when the ready list is empty.  Returns the chosen
thread together with the remaining ready list. -/
def next_thread_to_run (st : KState) : Thread × List Thread :=
  match st.ready_list with
  | [] => (st.idle, [])
  | t :: rest => (t, rest)

/-- `schedule` from thread.c: picks the next thread, marks it running,
resets the time-slice counter, and, when actually switching away from a
dying thread that is not the initial thread, queues that thread's page
on the destruction list (it is not freed here). -/
def schedule (st : KState) : KState :=
  let curr := st.current
  let nx := next_thread_to_run st
  let next := { nx.1 with status := THREAD_RUNNING }
  let dreq :=
    if curr.block ≠ next.block ∧ curr.status = THREAD_DYING ∧
        curr.block ≠ st.initial_block then
      st.destruction_req ++ [curr]
    else st.destruction_req
  { st with current := next, ready_list := nx.2, destruction_req := dreq, thread_ticks := 0 }

/-- `do_schedule` from thread.c: first fully drains `destruction_req`,
freeing every queued page back to the allocator, then sets the current
thread's status and calls `schedule`. -/
def do_schedule (status : thread_status) (st : KState) : KState :=
  let fp := st.free_pages ++ st.destruction_req.map (fun t => t.block)
  let st1 := { st with free_pages := fp, destruction_req := ([] : List Thread) }
  schedule { st1 with current := { st1.current with status := status } }

/-- `thread_block` from thread.c: sets the current thread's status to
`THREAD_BLOCKED` and calls `schedule` directly (not `do_schedule`). -/
def thread_block (st : KState) : KState :=
  schedule { st with current := { st.current with status := THREAD_BLOCKED } }

/-- `thread_yield` from thread.c: unless the current thread is the idle
thread, reinsert it into the ready list by priority order; then
`do_schedule (THREAD_READY)` (the C status write lands on the inserted
node through the `elem` pointer). -/
def thread_yield (st : KState) : KState :=
  let r := list_insert_ordered thread_prio_cmp
    { st.current with status := THREAD_READY } st.ready_list
  let st1 :=
    if st.current.block ≠ st.idle.block then { st with ready_list := r } else st
  do_schedule THREAD_READY st1

/-- `thread_create` from thread.c: allocate a page (returning
`TID_ERROR` with the state untouched when the pool is empty), run
`init_thread`, assign the next tid, unblock the new thread, and yield
when the new thread's priority is strictly above the caller's. -/
def thread_create (name : String) (priority : Int) (st : KState) :
    Option (Int × KState) :=
  match st.free_pages with
  | [] => some (TID_ERROR, st)
  | page :: rest =>
    match init_thread page name priority with
    | none => none
    | some t0 =>
      let tid := st.next_tid
      let t := { t0 with tid := tid }
      let st1 := { st with free_pages := rest, next_tid := st.next_tid + 1 }
      match thread_unblock t st1 with
      | none => none
      | some st2 =>
        if st2.current.priority < t.priority then
          some (tid, thread_yield st2)
        else
          some (tid, st2)

/-- `thread_get_priority` from thread.c: the running thread's priority. -/
def thread_get_priority (st : KState) : Int :=
  st.current.priority

/-- `max_priority` from thread.c: nothing to do when the ready list is
empty; otherwise yield when the running thread's priority is strictly
below the ready-list head's. -/
def max_priority (st : KState) : KState :=
  match st.ready_list with
  | [] => st
  | th :: _ =>
    if thread_get_priority st < th.priority then thread_yield st else st

/-- `thread_set_priority` from thread.c: store the new priority into the
current thread, then `max_priority`. -/
def thread_set_priority (new_priority : Int) (st : KState) : KState :=
  max_priority { st with current := { st.current with priority := new_priority } }

/-- `thread_sleep` from thread.c: a no-op for the idle thread; otherwise
record the wakeup tick on the current thread, insert it into the sleep
list by `thread_wakeup_cmp` order, and block (the status write done by
`thread_block` lands on the inserted node through the `elem` pointer). -/
def thread_sleep (wakeup_tick : Int) (st : KState) : KState :=
  if st.current.block = st.idle.block then st
  else
    let cur := { st.current with wakeup_tick := wakeup_tick }
    let sl := list_insert_ordered thread_wakeup_cmp
      { cur with status := THREAD_BLOCKED } st.sleep_list
    thread_block { st with current := cur, sleep_list := sl }

/-- Loop body of `thread_awake` from thread.c: while the front of the
sleep list is due, pop it and unblock it (recording whether any woken
thread outranks the running thread); stop at the first entry that is not
due.  The `none` case is the fatal assert inside `thread_unblock`. -/
def thread_awake_loop (now_tick : Int) (cur : Thread) :
    List Thread → List Thread → Bool → Option (List Thread × List Thread × Bool)
  | [], ready, preempt => some ([], ready, preempt)
  | t :: rest, ready, preempt =>
    if t.wakeup_tick ≤ now_tick then
      if t.status = THREAD_BLOCKED then
        thread_awake_loop now_tick cur rest
          (list_insert_ordered thread_prio_cmp
            { t with status := THREAD_READY } ready)
          (preempt || decide (cur.priority < t.priority))
      else none
    else some (t :: rest, ready, preempt)

/-- `thread_awake` from thread.c: run the wake loop over the sleep list,
then call `intr_yield_on_return` exactly when some woken thread outranks
the running thread; no context switch happens inside the call. -/
def thread_awake (now_tick : Int) (st : KState) : Option KState :=
  match thread_awake_loop now_tick st.current st.sleep_list st.ready_list false with
  | none => none
  | some (sleep1, ready1, preempt) =>
    let yr := st.yield_on_return || preempt
    some { st with sleep_list := sleep1, ready_list := ready1, yield_on_return := yr }

/-- Ready Queue ordering from the spec: non-increasing priority. -/
def prio_sorted (l : List Thread) : Prop :=
  l.Pairwise (fun a b => b.priority ≤ a.priority)

/-- Sleep Queue ordering from the spec: non-decreasing wakeup tick, and
non-increasing priority among equal ticks. -/
def sleep_sorted (l : List Thread) : Prop :=
  l.Pairwise (fun a b =>
    a.wakeup_tick < b.wakeup_tick ∨
      (a.wakeup_tick = b.wakeup_tick ∧ b.priority ≤ a.priority))

instance : DecidablePred prio_sorted := fun l => by
  unfold prio_sorted
  infer_instance

instance : DecidablePred sleep_sorted := fun l => by
  unfold sleep_sorted
  infer_instance

example : prio_sorted [] := by decide

/-- Sample running thread used to evaluate the theorems on concrete states. -/
def th_main : Thread :=
  { tid := 1, status := THREAD_RUNNING, name := "main", priority := 31,
    wakeup_tick := 0, magic := THREAD_MAGIC, block := 3 }

/-- Sample idle thread. -/
def th_idle : Thread :=
  { tid := 2, status := THREAD_BLOCKED, name := "idle", priority := 0,
    wakeup_tick := 0, magic := THREAD_MAGIC, block := 4 }

/-- Sample blocked high-priority thread. -/
def th_hi : Thread :=
  { tid := 5, status := THREAD_BLOCKED, name := "hi", priority := 40,
    wakeup_tick := 0, magic := THREAD_MAGIC, block := 5 }

/-- Sample ready low-priority thread. -/
def th_lo : Thread :=
  { tid := 6, status := THREAD_READY, name := "lo", priority := 10,
    wakeup_tick := 0, magic := THREAD_MAGIC, block := 6 }

/-- Sample ready default-priority thread. -/
def th_mid : Thread :=
  { tid := 7, status := THREAD_READY, name := "mid", priority := 31,
    wakeup_tick := 0, magic := THREAD_MAGIC, block := 7 }

/-- Sample sleeping thread due at tick 10. -/
def th_s1 : Thread :=
  { tid := 11, status := THREAD_BLOCKED, name := "s1", priority := 50,
    wakeup_tick := 10, magic := THREAD_MAGIC, block := 11 }

/-- Sample sleeping thread due at tick 30. -/
def th_s2 : Thread :=
  { tid := 12, status := THREAD_BLOCKED, name := "s2", priority := 20,
    wakeup_tick := 30, magic := THREAD_MAGIC, block := 12 }

/-- Sample scheduler state: main running, two ready threads, one free
page, the initial thread's page being main's. -/
def st0 : KState :=
  { current := th_main, ready_list := [th_mid, th_lo], sleep_list := [],
    destruction_req := [], free_pages := [8], next_tid := 10,
    idle := th_idle, initial_block := 3, yield_on_return := false,
    thread_ticks := 0 }

/-- Sample state with two sleeping threads. -/
def stS : KState :=
  { st0 with sleep_list := [th_s1, th_s2] }

/-- The ready list produced by unblocking th_hi in st0. -/
def stU1 : KState :=
  { st0 with ready_list := [{ th_hi with status := THREAD_READY }, th_mid, th_lo] }

/-- Sample state with an empty page pool. -/
def stNoMem : KState :=
  { st0 with free_pages := [] }

/-- Sample state in which the initial thread is dying. -/
def stInitDying : KState :=
  { st0 with current := { th_main with status := THREAD_DYING } }

/-- Sample state with an empty ready list. -/
def stEmptyReady : KState :=
  { st0 with ready_list := [] }

/-- The thread record that a successful init_thread produces, named for
use in the statements below. -/
def init_rec (page : Nat) (nm : String) (p : Int) : Thread :=
  { tid := 0, status := THREAD_BLOCKED, name := nm, priority := p,
    wakeup_tick := 0, magic := THREAD_MAGIC, block := page }

/-- The thread produced by init_thread on page 8 with priority 31. -/
def tInit : Thread :=
  { tid := 0, status := THREAD_BLOCKED, name := "x", priority := 31,
    wakeup_tick := 0, magic := THREAD_MAGIC, block := 8 }

/-- Sample state in which a non-initial thread (page 7) is running with
one ready thread; used to trace an exit followed by a sleep. -/
def stC6 : KState :=
  { st0 with
    current := { th_mid with status := THREAD_RUNNING },
    ready_list := [th_lo] }

theorem mem_list_insert_ordered {less : Thread → Thread → Bool} {x z : Thread} :
    ∀ {l : List Thread}, z ∈ list_insert_ordered less x l ↔ z = x ∨ z ∈ l := by
  intro l
  induction l with
  | nil => simp [list_insert_ordered]
  | cons y ys ih =>
    cases h : less x y
    · simp only [list_insert_ordered, h, Bool.false_eq_true, if_false,
        List.mem_cons, ih]
      tauto
    · simp only [list_insert_ordered, h, if_true, List.mem_cons]
      try tauto

theorem list_insert_ordered_pairwise {R : Thread → Thread → Prop}
    {less : Thread → Thread → Bool}
    (htrans : ∀ a b c, R a b → R b c → R a c)
    (hT : ∀ a b, less a b = true → R a b)
    (hF : ∀ a b, less a b = false → R b a)
    (x : Thread) :
    ∀ l : List Thread, l.Pairwise R → (list_insert_ordered less x l).Pairwise R := by
  intro l
  induction l with
  | nil => intro _; simp [list_insert_ordered]
  | cons y ys ih =>
    intro hp
    rw [List.pairwise_cons] at hp
    obtain ⟨hy, hys⟩ := hp
    cases h : less x y
    · simp only [list_insert_ordered, h, Bool.false_eq_true, if_false]
      refine List.Pairwise.cons ?_ (ih hys)
      intro z hz
      rcases mem_list_insert_ordered.mp hz with rfl | hz2
      · exact hF _ _ h
      · exact hy _ hz2
    · simp only [list_insert_ordered, h, if_true]
      have hxy : R x y := hT _ _ h
      refine List.Pairwise.cons ?_ (List.Pairwise.cons hy hys)
      intro z hz
      rcases List.mem_cons.mp hz with rfl | hz2
      · exact hxy
      · exact htrans _ _ _ hxy (hy _ hz2)

theorem list_insert_ordered_eq (less : Thread → Thread → Bool) (x : Thread) :
    ∀ l : List Thread,
      list_insert_ordered less x l =
        l.takeWhile (fun y => !less x y) ++ x :: l.dropWhile (fun y => !less x y) := by
  intro l
  induction l with
  | nil => simp [list_insert_ordered]
  | cons y ys ih =>
    cases h : less x y
    · simp [list_insert_ordered, h, List.takeWhile_cons, List.dropWhile_cons, ih]
    · simp [list_insert_ordered, h, List.takeWhile_cons, List.dropWhile_cons]

theorem prio_dropWhile_lt (x : Thread) :
    ∀ l : List Thread, prio_sorted l →
      ∀ y ∈ l.dropWhile (fun y => !thread_prio_cmp x y), y.priority < x.priority := by
  intro l
  induction l with
  | nil => intro _ y hy; simp [List.dropWhile] at hy
  | cons z zs ih =>
    intro hs y hy
    rw [prio_sorted, List.pairwise_cons] at hs
    obtain ⟨hz, hzs⟩ := hs
    cases h : thread_prio_cmp x z
    · rw [List.dropWhile_cons] at hy
      simp only [h, Bool.not_false, if_true] at hy
      exact ih hzs y hy
    · rw [List.dropWhile_cons] at hy
      simp only [h, Bool.not_true, Bool.false_eq_true, if_false] at hy
      have hzx : z.priority < x.priority := by
        have := of_decide_eq_true h
        exact this
      rcases List.mem_cons.mp hy with rfl | hy2
      · exact hzx
      · exact lt_of_le_of_lt (hz y hy2) hzx

theorem prio_insert_split (x : Thread) (l : List Thread) (hl : prio_sorted l) :
    ∃ a b, l = a ++ b ∧
      list_insert_ordered thread_prio_cmp x l = a ++ x :: b ∧
      (∀ y ∈ a, x.priority ≤ y.priority) ∧ (∀ y ∈ b, y.priority < x.priority) := by
  refine ⟨l.takeWhile (fun y => !thread_prio_cmp x y),
          l.dropWhile (fun y => !thread_prio_cmp x y),
          (List.takeWhile_append_dropWhile _ _).symm,
          list_insert_ordered_eq _ _ l, ?_, prio_dropWhile_lt x l hl⟩
  intro y hy
  have hp := List.mem_takeWhile_imp hy
  simp only [Bool.not_eq_true', thread_prio_cmp, decide_eq_false_iff_not, not_lt] at hp
  exact hp

theorem prio_cmp_true {a b : Thread} (h : thread_prio_cmp a b = true) :
    b.priority ≤ a.priority :=
  le_of_lt (of_decide_eq_true h)

theorem prio_cmp_false {a b : Thread} (h : thread_prio_cmp a b = false) :
    a.priority ≤ b.priority :=
  le_of_not_lt (of_decide_eq_false h)

theorem wakeup_cmp_true {a b : Thread} (h : thread_wakeup_cmp a b = true) :
    a.wakeup_tick < b.wakeup_tick ∨
      (a.wakeup_tick = b.wakeup_tick ∧ b.priority ≤ a.priority) := by
  unfold thread_wakeup_cmp at h
  by_cases hw : a.wakeup_tick = b.wakeup_tick
  · simp only [hw, ne_eq, not_true_eq_false, if_false, decide_eq_true_eq] at h
    exact Or.inr ⟨hw, le_of_lt h⟩
  · simp only [ne_eq, hw, not_false_iff, if_true, decide_eq_true_eq] at h
    exact Or.inl h

theorem wakeup_cmp_false {a b : Thread} (h : thread_wakeup_cmp a b = false) :
    b.wakeup_tick < a.wakeup_tick ∨
      (b.wakeup_tick = a.wakeup_tick ∧ a.priority ≤ b.priority) := by
  unfold thread_wakeup_cmp at h
  by_cases hw : a.wakeup_tick = b.wakeup_tick
  · simp only [hw, ne_eq, not_true_eq_false, if_false,
      decide_eq_false_iff_not, not_lt] at h
    exact Or.inr ⟨hw.symm, h⟩
  · simp only [ne_eq, hw, not_false_iff, if_true,
      decide_eq_false_iff_not, not_lt] at h
    exact Or.inl (lt_of_le_of_ne h (fun e => hw e.symm))

theorem schedule_frame (st : KState) :
    (schedule st).sleep_list = st.sleep_list ∧
    (schedule st).free_pages = st.free_pages ∧
    (schedule st).next_tid = st.next_tid ∧
    (schedule st).idle = st.idle ∧
    (schedule st).initial_block = st.initial_block ∧
    (schedule st).yield_on_return = st.yield_on_return := by
  unfold schedule
  simp

theorem schedule_ready (st : KState) :
    (schedule st).ready_list = st.ready_list.tail := by
  unfold schedule next_thread_to_run
  cases st.ready_list <;> simp

theorem do_schedule_sleep (s : thread_status) (st : KState) :
    (do_schedule s st).sleep_list = st.sleep_list := by
  unfold do_schedule
  exact (schedule_frame _).1

theorem do_schedule_ready (s : thread_status) (st : KState) :
    (do_schedule s st).ready_list = st.ready_list.tail := by
  unfold do_schedule
  exact schedule_ready _

theorem thread_block_sleep (st : KState) :
    (thread_block st).sleep_list = st.sleep_list := by
  unfold thread_block
  exact (schedule_frame _).1

theorem prio_sorted_tail (l : List Thread) (h : prio_sorted l) :
    prio_sorted l.tail :=
  List.Pairwise.tail h

theorem prio_sorted_insert (x : Thread) (l : List Thread) (hl : prio_sorted l) :
    prio_sorted (list_insert_ordered thread_prio_cmp x l) := by
  refine list_insert_ordered_pairwise ?_ ?_ ?_ x l hl
  · exact fun a b c h1 h2 => le_trans h2 h1
  · exact fun a b h => prio_cmp_true h
  · exact fun a b h => prio_cmp_false h

/-- C1: the Ready Queue ordering invariant.  Inserting a blocked thread
through thread_unblock into a ready list sorted by non-increasing
priority keeps it sorted and places the thread after every thread of
equal or higher priority (FIFO among equals) and before exactly the
strictly lower-priority ones; thread_yield likewise leaves the ready
list sorted by non-increasing priority. -/
theorem ready_queue_order_preserved (st : KState) (t : Thread) (st1 : KState)
    (hs : prio_sorted st.ready_list)
    (hu : thread_unblock t st = some st1) :
    (prio_sorted st1.ready_list ∧
      ∃ a b, st.ready_list = a ++ b ∧
        st1.ready_list = a ++ ({ t with status := THREAD_READY } :: b) ∧
        (∀ y ∈ a, t.priority ≤ y.priority) ∧
        (∀ y ∈ b, y.priority < t.priority)) ∧
    prio_sorted (thread_yield st).ready_list := by
  constructor
  · by_cases ht : t.status = THREAD_BLOCKED
    · simp only [thread_unblock, ht, if_true, Option.some.injEq] at hu
      subst hu
      constructor
      · exact prio_sorted_insert _ _ hs
      · obtain ⟨a, b, hab, hins, ha, hb⟩ :=
          prio_insert_split { t with status := THREAD_READY } st.ready_list hs
        exact ⟨a, b, hab, hins, ha, hb⟩
    · simp [thread_unblock, ht] at hu
  · unfold thread_yield
    rw [do_schedule_ready]
    by_cases hi : st.current.block ≠ st.idle.block
    · rw [if_pos hi]
      exact prio_sorted_tail _ (prio_sorted_insert _ _ hs)
    · rw [if_neg hi]
      exact prio_sorted_tail _ hs

/-- C1 witness: unblocking th_hi into st0 and evaluating thread_yield. -/
theorem ready_queue_order_preserved_witness :
    prio_sorted stU1.ready_list ∧ prio_sorted (thread_yield st0).ready_list := by
  have h := ready_queue_order_preserved st0 th_hi stU1 (by decide) (by decide)
  exact ⟨h.1.1, h.2⟩

/-- C2: the Sleep Queue ordering invariant.  thread_sleep's ordered
insertion keeps the sleep list sorted by non-decreasing wakeup tick,
with non-increasing priority among equal ticks. -/
theorem sleep_queue_order_preserved (st : KState) (w : Int)
    (hs : sleep_sorted st.sleep_list) :
    sleep_sorted (thread_sleep w st).sleep_list := by
  unfold thread_sleep
  by_cases hi : st.current.block = st.idle.block
  · simpa [hi] using hs
  · simp only [hi, if_false]
    rw [thread_block_sleep]
    refine list_insert_ordered_pairwise ?_ ?_ ?_ _ _ hs
    · intro a b c h1 h2
      rcases h1 with h1 | ⟨h1, h1p⟩ <;> rcases h2 with h2 | ⟨h2, h2p⟩
      · exact Or.inl (lt_trans h1 h2)
      · exact Or.inl (h2 ▸ h1)
      · exact Or.inl (h1 ▸ h2)
      · exact Or.inr ⟨h1.trans h2, le_trans h2p h1p⟩
    · exact fun a b h => wakeup_cmp_true h
    · exact fun a b h => wakeup_cmp_false h

/-- C2 witness: a thread sleeping until tick 20 lands between the
sleepers due at ticks 10 and 30. -/
theorem sleep_queue_order_preserved_witness :
    sleep_sorted (thread_sleep 20 stS).sleep_list :=
  sleep_queue_order_preserved stS 20 (by decide)

/-- C5: the thread_unblock contract.  Any status other than
THREAD_BLOCKED is a fatal assertion failure; on a blocked thread it
inserts the thread, now THREAD_READY, at the descending-priority FIFO
position of the ready list, and changes nothing else: in particular the
running thread is untouched, so the call never preempts or yields. -/
theorem thread_unblock_contract (t : Thread) (st : KState) :
    (t.status ≠ THREAD_BLOCKED → thread_unblock t st = none) ∧
    (t.status = THREAD_BLOCKED →
      ∃ st1, thread_unblock t st = some st1 ∧
        st1.current = st.current ∧
        st1.sleep_list = st.sleep_list ∧
        st1.destruction_req = st.destruction_req ∧
        st1.free_pages = st.free_pages ∧
        st1.next_tid = st.next_tid ∧
        st1.yield_on_return = st.yield_on_return ∧
        (prio_sorted st.ready_list →
          ∃ a b, st.ready_list = a ++ b ∧
            st1.ready_list = a ++ ({ t with status := THREAD_READY } :: b) ∧
            (∀ y ∈ a, t.priority ≤ y.priority) ∧
            (∀ y ∈ b, y.priority < t.priority))) := by
  constructor
  · intro ht
    simp [thread_unblock, ht]
  · intro ht
    unfold thread_unblock
    rw [if_pos ht]
    exact ⟨_, rfl, rfl, rfl, rfl, rfl, rfl, rfl,
      fun hs => prio_insert_split { t with status := THREAD_READY } st.ready_list hs⟩

/-- C5 witness: unblocking the ready thread th_mid is fatal, while
unblocking the blocked thread th_hi succeeds and leaves the running
thread unchanged. -/
theorem thread_unblock_contract_witness :
    thread_unblock th_mid st0 = none ∧
    (∃ st1, thread_unblock th_hi st0 = some st1 ∧ st1.current = st0.current) := by
  constructor
  · exact (thread_unblock_contract th_mid st0).1 (by decide)
  · obtain ⟨st1, h1, h2, _⟩ := (thread_unblock_contract th_hi st0).2 (by decide)
    exact ⟨st1, h1, h2⟩

theorem thread_yield_cons (st : KState) (h : Thread) (tl : List Thread)
    (hr : st.ready_list = h :: tl)
    (hni : st.current.block ≠ st.idle.block)
    (hcmp : thread_prio_cmp { st.current with status := THREAD_READY } h = false) :
    (thread_yield st).current = { h with status := THREAD_RUNNING } ∧
    (thread_yield st).ready_list =
      list_insert_ordered thread_prio_cmp
        { st.current with status := THREAD_READY } tl := by
  simp [thread_yield, do_schedule, schedule, next_thread_to_run,
    list_insert_ordered, hr, hcmp, hni]

/-- C9: thread_create with no free page returns the TID_ERROR sentinel
with the scheduler state untouched: no tid is consumed and neither the
ready queue nor anything else changes. -/
theorem thread_create_out_of_memory (name : String) (p : Int) (st : KState)
    (h : st.free_pages = []) :
    thread_create name p st = some (TID_ERROR, st) := by
  unfold thread_create
  rw [h]

/-- C9 witness: creating a thread in a state with an exhausted page pool. -/
theorem thread_create_out_of_memory_witness :
    thread_create "t" 31 stNoMem = some (TID_ERROR, stNoMem) :=
  thread_create_out_of_memory "t" 31 stNoMem (by decide)

/-- C10: when the thread being switched away from is the dying initial
thread, schedule leaves the destruction list unchanged and frees
nothing, so deferred destruction never applies to the initial thread. -/
theorem schedule_initial_thread_not_destroyed (st : KState)
    (hd : st.current.status = THREAD_DYING)
    (hi : st.current.block = st.initial_block) :
    (schedule st).destruction_req = st.destruction_req ∧
    (schedule st).free_pages = st.free_pages := by
  unfold schedule
  constructor
  · simp [hi]
  · simp

/-- C10 witness: the dying initial thread's page is not queued for
destruction. -/
theorem schedule_initial_thread_not_destroyed_witness :
    (schedule stInitDying).destruction_req = stInitDying.destruction_req ∧
    (schedule stInitDying).free_pages = stInitDying.free_pages :=
  schedule_initial_thread_not_destroyed stInitDying (by decide) (by decide)

/-- C7: thread_set_priority stores exactly its argument into the running
thread, so a get_priority right after returns it; afterwards it yields
precisely when the new value is strictly below the Ready Queue head's
priority, never when the Ready Queue is empty; when it yields, the old
head becomes the running thread and the caller re-enters the ready list
with its new priority. -/
theorem thread_set_priority_contract (st : KState) (p : Int)
    (hni : st.current.block ≠ st.idle.block) :
    (st.ready_list = [] →
      thread_set_priority p st =
        { st with current := { st.current with priority := p } }) ∧
    (∀ h tl, st.ready_list = h :: tl →
      (h.priority ≤ p →
        thread_set_priority p st =
          { st with current := { st.current with priority := p } } ∧
        thread_get_priority (thread_set_priority p st) = p) ∧
      (p < h.priority →
        ({ st.current with priority := p, status := THREAD_READY } ∈
            (thread_set_priority p st).ready_list) ∧
        (thread_set_priority p st).current =
          { h with status := THREAD_RUNNING })) := by
  constructor
  · intro he
    simp [thread_set_priority, max_priority, he]
  · intro h tl hr
    constructor
    · intro hle
      have hnlt : ¬ (p < h.priority) := not_lt.mpr hle
      constructor
      · simp [thread_set_priority, max_priority, thread_get_priority, hr, hnlt]
      · simp [thread_set_priority, max_priority, thread_get_priority, hr, hnlt]
    · intro hlt
      have hcond : thread_get_priority
          { st with current := { st.current with priority := p } } < h.priority := hlt
      have hcmp : thread_prio_cmp
          { st.current with priority := p, status := THREAD_READY } h = false := by
        simp [thread_prio_cmp]
        exact le_of_lt hlt
      have hy := thread_yield_cons
        { st with current := { st.current with priority := p } } h tl hr hni hcmp
      have hset : thread_set_priority p st =
          thread_yield { st with current := { st.current with priority := p } } := by
        simp only [thread_set_priority, max_priority, hr, thread_get_priority]
        rw [if_pos hlt]
      constructor
      · have hmem : ({ st.current with priority := p, status := THREAD_READY } : Thread) ∈
            list_insert_ordered thread_prio_cmp
              { st.current with priority := p, status := THREAD_READY } tl :=
          mem_list_insert_ordered.mpr (Or.inl rfl)
        rw [hset, hy.2]
        exact hmem
      · rw [hset]
        exact hy.1

/-- C7 witness: raising the priority with an empty ready list only
stores the value, and lowering it below the ready head (priority 31)
hands the CPU to that head. -/
theorem thread_set_priority_contract_witness :
    thread_set_priority 40 stEmptyReady =
      { stEmptyReady with current := { stEmptyReady.current with priority := 40 } } ∧
    (thread_set_priority 10 st0).current = { th_mid with status := THREAD_RUNNING } := by
  constructor
  · exact (thread_set_priority_contract stEmptyReady 40 (by decide)).1 rfl
  · exact (((thread_set_priority_contract st0 10 (by decide)).2
      th_mid [th_lo] rfl).2 (by decide)).2

theorem set_priority_write (st : KState) (p : Int)
    (hni : st.current.block ≠ st.idle.block) :
    (thread_set_priority p st).current.priority = p ∨
      { st.current with priority := p, status := THREAD_READY } ∈
        (thread_set_priority p st).ready_list := by
  cases hr : st.ready_list with
  | nil =>
    left
    simp [thread_set_priority, max_priority, hr]
  | cons h tl =>
    by_cases hlt : p < h.priority
    · right
      have hcmp : thread_prio_cmp
          { st.current with priority := p, status := THREAD_READY } h = false := by
        simp [thread_prio_cmp]
        exact le_of_lt hlt
      have hy := thread_yield_cons
        { st with current := { st.current with priority := p } } h tl hr hni hcmp
      have hset : thread_set_priority p st =
          thread_yield { st with current := { st.current with priority := p } } := by
        simp only [thread_set_priority, max_priority, hr, thread_get_priority]
        rw [if_pos hlt]
      rw [hset, hy.2]
      exact mem_list_insert_ordered.mpr (Or.inl rfl)
    · left
      simp [thread_set_priority, max_priority, hr, thread_get_priority, hlt]

/-- C8 counterexample: thread_set_priority does not keep the priority in
[0, 63]: calling it with 100 stores 100, above PRI_MAX. -/
theorem priority_range_counterexample :
    (thread_set_priority 100 stEmptyReady).current.priority = 100 ∧
    ¬ ((thread_set_priority 100 stEmptyReady).current.priority ≤ PRI_MAX) := by
  constructor
  · decide
  · decide

/-- C8 amended: task creation establishes the [PRI_MIN, PRI_MAX] bound
through the init_thread assertion, and thread_set_priority writes
exactly its argument into the caller's priority field (whether the
caller stays running or yields into the ready list), so the bound is
maintained precisely when callers pass an argument within [PRI_MIN,
PRI_MAX]; set_priority itself performs no clamping. -/
theorem priority_range_amended (page : Nat) (nm : String) (pr : Int)
    (t : Thread) (st : KState) (p : Int)
    (hinit : init_thread page nm pr = some t)
    (hp0 : PRI_MIN ≤ p) (hp1 : p ≤ PRI_MAX)
    (hni : st.current.block ≠ st.idle.block) :
    (PRI_MIN ≤ t.priority ∧ t.priority ≤ PRI_MAX) ∧
    (((thread_set_priority p st).current.priority = p ∨
        { st.current with priority := p, status := THREAD_READY } ∈
          (thread_set_priority p st).ready_list) ∧
      PRI_MIN ≤ p ∧ p ≤ PRI_MAX) := by
  constructor
  · by_cases hb : PRI_MIN ≤ pr ∧ pr ≤ PRI_MAX
    · simp only [init_thread, if_pos hb, Option.some.injEq] at hinit
      subst hinit
      exact hb
    · simp [init_thread, hb] at hinit
  · exact ⟨set_priority_write st p hni, hp0, hp1⟩

/-- C8 amended witness: init_thread at priority 31 and set_priority 40
both stay within bounds. -/
theorem priority_range_amended_witness :
    (PRI_MIN ≤ tInit.priority ∧ tInit.priority ≤ PRI_MAX) ∧
    (((thread_set_priority 40 stEmptyReady).current.priority = 40 ∨
        { stEmptyReady.current with priority := 40, status := THREAD_READY } ∈
          (thread_set_priority 40 stEmptyReady).ready_list) ∧
      PRI_MIN ≤ (40 : Int) ∧ (40 : Int) ≤ PRI_MAX) :=
  priority_range_amended 8 "x" 31 tInit stEmptyReady 40
    (by decide) (by decide) (by decide) (by decide)

theorem thread_awake_loop_spec (now : Int) (cur : Thread) :
    ∀ (sl : List Thread), sleep_sorted sl →
      (∀ t ∈ sl, t.status = THREAD_BLOCKED) →
      ∀ (ready : List Thread) (pre : Bool),
      ∃ ready1,
        thread_awake_loop now cur sl ready pre =
          some (sl.filter (fun t => decide (now < t.wakeup_tick)), ready1,
            (pre || sl.any (fun t => decide (t.wakeup_tick ≤ now) &&
              decide (cur.priority < t.priority)))) ∧
        (∀ t ∈ ready, t ∈ ready1) ∧
        (∀ t ∈ sl, t.wakeup_tick ≤ now →
          { t with status := THREAD_READY } ∈ ready1) := by
  intro sl
  induction sl with
  | nil =>
    intro _ _ ready pre
    exact ⟨ready, by simp [thread_awake_loop], fun t ht => ht, by simp⟩
  | cons t rest ih =>
    intro hs hb ready pre
    rw [sleep_sorted, List.pairwise_cons] at hs
    obtain ⟨hrel, hrest⟩ := hs
    have hbt : t.status = THREAD_BLOCKED := hb t (List.mem_cons_self t rest)
    by_cases hdue : t.wakeup_tick ≤ now
    · obtain ⟨ready1, heq, hold, hwoken⟩ :=
        ih hrest (fun x hx => hb x (List.mem_cons_of_mem _ hx))
          (list_insert_ordered thread_prio_cmp
            { t with status := THREAD_READY } ready)
          (pre || decide (cur.priority < t.priority))
      have hstep : thread_awake_loop now cur (t :: rest) ready pre =
          thread_awake_loop now cur rest
            (list_insert_ordered thread_prio_cmp
              { t with status := THREAD_READY } ready)
            (pre || decide (cur.priority < t.priority)) := by
        simp [thread_awake_loop, hdue, hbt]
      have hnl : ¬ (now < t.wakeup_tick) := not_lt.mpr hdue
      refine ⟨ready1, ?_, ?_, ?_⟩
      · rw [hstep, heq]
        simp [List.filter_cons, List.any_cons, hnl, hdue, Bool.or_assoc]
      · intro x hx
        exact hold x (mem_list_insert_ordered.mpr (Or.inr hx))
      · intro x hx hxdue
        rcases List.mem_cons.mp hx with rfl | hx2
        · exact hold _ (mem_list_insert_ordered.mpr (Or.inl rfl))
        · exact hwoken x hx2 hxdue
    · have hstep : thread_awake_loop now cur (t :: rest) ready pre =
          some (t :: rest, ready, pre) := by
        simp [thread_awake_loop, hdue]
      have hlater : ∀ x ∈ rest, now < x.wakeup_tick := by
        intro x hx
        have hlt : ¬ (t.wakeup_tick ≤ now) := hdue
        rcases hrel x hx with hw | ⟨hw, _⟩
        · exact lt_of_lt_of_le (not_le.mp hlt) (le_of_lt hw)
        · exact hw ▸ not_le.mp hlt
      refine ⟨ready, ?_, fun x hx => hx, ?_⟩
      · rw [hstep]
        have hfilter : (t :: rest).filter
            (fun x => decide (now < x.wakeup_tick)) = t :: rest := by
          refine List.filter_eq_self.mpr ?_
          intro x hx
          rcases List.mem_cons.mp hx with rfl | hx2
          · exact decide_eq_true (not_le.mp hdue)
          · exact decide_eq_true (hlater x hx2)
        have hany : (t :: rest).any (fun x => decide (x.wakeup_tick ≤ now) &&
            decide (cur.priority < x.priority)) = false := by
          refine List.any_eq_false.mpr ?_
          intro x hx
          rcases List.mem_cons.mp hx with rfl | hx2
          · simp [hdue]
          · simp [not_le.mpr (hlater x hx2)]
        rw [hfilter, hany, Bool.or_false]
      · intro x hx hxdue
        rcases List.mem_cons.mp hx with rfl | hx2
        · exact absurd hxdue hdue
        · exact absurd hxdue (not_le.mpr (hlater x hx2))

/-- C3: thread_awake on a sorted all-blocked sleep queue removes and
unblocks exactly the entries whose wakeup tick is at or before now_tick
(front to back, stopping at the first entry not yet due), inserting each
into the ready queue with status READY; the deferred-preemption flag is
requested exactly when some woken thread has strictly higher priority
than the running thread; and no context switch happens inside the call:
the running thread and the rest of the state are unchanged. -/
theorem thread_awake_contract (now : Int) (st : KState)
    (hs : sleep_sorted st.sleep_list)
    (hb : ∀ t ∈ st.sleep_list, t.status = THREAD_BLOCKED) :
    ∃ st1, thread_awake now st = some st1 ∧
      st1.current = st.current ∧
      st1.sleep_list =
        st.sleep_list.filter (fun t => decide (now < t.wakeup_tick)) ∧
      (∀ t ∈ st.sleep_list, t.wakeup_tick ≤ now →
        { t with status := THREAD_READY } ∈ st1.ready_list) ∧
      (∀ t ∈ st.ready_list, t ∈ st1.ready_list) ∧
      st1.yield_on_return = (st.yield_on_return ||
        st.sleep_list.any (fun t => decide (t.wakeup_tick ≤ now) &&
          decide (st.current.priority < t.priority))) ∧
      st1.destruction_req = st.destruction_req ∧
      st1.free_pages = st.free_pages := by
  obtain ⟨ready1, heq, hold, hwoken⟩ :=
    thread_awake_loop_spec now st.current st.sleep_list hs hb st.ready_list false
  unfold thread_awake
  rw [heq]
  refine ⟨_, rfl, rfl, rfl, hwoken, hold, ?_, rfl, rfl⟩
  simp

/-- C3 witness: at tick 15 exactly the sleeper due at tick 10 is woken;
it outranks the running thread, so the deferred yield is requested, and
the running thread is unchanged. -/
theorem thread_awake_contract_witness :
    ∃ st1, thread_awake 15 stS = some st1 ∧ st1.sleep_list = [th_s2] ∧
      st1.yield_on_return = true ∧ st1.current = stS.current := by
  obtain ⟨st1, h1, h2, h3, _, _, h6, _, _⟩ :=
    thread_awake_contract 15 stS (by decide) (by decide)
  refine ⟨st1, h1, ?_, ?_, h2⟩
  · rw [h3]
    decide
  · rw [h6]
    decide

theorem insert_head (x : Thread) (l : List Thread) :
    ∃ h tl, list_insert_ordered thread_prio_cmp x l = h :: tl ∧
      x.priority ≤ h.priority ∧ (h = x ∨ h ∈ l) := by
  cases l with
  | nil => exact ⟨x, [], rfl, le_refl _, Or.inl rfl⟩
  | cons r rr =>
    cases hcmp : thread_prio_cmp x r
    · refine ⟨r, list_insert_ordered thread_prio_cmp x rr, ?_, ?_, ?_⟩
      · simp [list_insert_ordered, hcmp]
      · exact prio_cmp_false hcmp
      · exact Or.inr (List.mem_cons_self _ _)
    · refine ⟨x, r :: rr, ?_, le_refl _, Or.inl rfl⟩
      simp [list_insert_ordered, hcmp]

/-- C4: a successful thread_create initializes the new thread with
status THREAD_BLOCKED, then unblocks it into the ready queue with
status THREAD_READY before returning, and the caller yields exactly
when the new thread's priority is strictly above its own: with a
lower-or-equal priority the caller keeps running and the new thread
waits in the ready list; with a strictly higher priority the caller
re-enters the ready list as READY, the thread running on return has
strictly higher priority than the caller, and the new thread is either
in the ready list or already running. -/
theorem thread_create_contract (nm : String) (p : Int) (st : KState)
    (page : Nat) (rest : List Nat)
    (hfp : st.free_pages = page :: rest)
    (hp : PRI_MIN ≤ p ∧ p ≤ PRI_MAX)
    (hni : st.current.block ≠ st.idle.block)
    (hs : prio_sorted st.ready_list) :
    ∃ t st3, init_thread page nm p = some t ∧ t.status = THREAD_BLOCKED ∧
      thread_create nm p st = some (st.next_tid, st3) ∧
      (¬ st.current.priority < p →
        st3.current = st.current ∧
        { t with tid := st.next_tid, status := THREAD_READY } ∈ st3.ready_list) ∧
      (st.current.priority < p →
        { st.current with status := THREAD_READY } ∈ st3.ready_list ∧
        st.current.priority < st3.current.priority ∧
        ({ t with tid := st.next_tid, status := THREAD_READY } ∈ st3.ready_list ∨
          st3.current =
            { t with tid := st.next_tid, status := THREAD_RUNNING })) := by
  have hinit : init_thread page nm p = some (init_rec page nm p) := by
    unfold init_thread init_rec
    rw [if_pos hp]
  by_cases hlt : st.current.priority < p
  · have hcr : thread_create nm p st = some (st.next_tid, thread_yield { st with free_pages := rest, next_tid := st.next_tid + 1, ready_list := list_insert_ordered thread_prio_cmp { init_rec page nm p with tid := st.next_tid, status := THREAD_READY } st.ready_list }) := by
      simp [thread_create, hfp, hinit, thread_unblock, init_rec, hlt]
    obtain ⟨hL, tlL, hLeq, hhp, hmemL⟩ :=
      insert_head { init_rec page nm p with tid := st.next_tid, status := THREAD_READY } st.ready_list
    have hcmp : thread_prio_cmp { st.current with status := THREAD_READY } hL = false := by
      simp only [thread_prio_cmp, decide_eq_false_iff_not, not_lt]
      exact le_of_lt (lt_of_lt_of_le hlt hhp)
    have hy := thread_yield_cons { st with free_pages := rest, next_tid := st.next_tid + 1, ready_list := list_insert_ordered thread_prio_cmp { init_rec page nm p with tid := st.next_tid, status := THREAD_READY } st.ready_list } hL tlL hLeq hni hcmp
    refine ⟨init_rec page nm p, _, hinit, rfl, hcr, fun hc => absurd hlt hc, fun _ => ?_⟩
    refine ⟨?_, ?_, ?_⟩
    · rw [hy.2]
      exact mem_list_insert_ordered.mpr (Or.inl rfl)
    · rw [hy.1]
      exact lt_of_lt_of_le hlt hhp
    · by_cases he : hL = { init_rec page nm p with tid := st.next_tid, status := THREAD_READY }
      · right
        rw [hy.1, he]
      · left
        have hmem : ({ init_rec page nm p with tid := st.next_tid, status := THREAD_READY } : Thread) ∈ hL :: tlL := by
          rw [← hLeq]
          exact mem_list_insert_ordered.mpr (Or.inl rfl)
        rcases List.mem_cons.mp hmem with hEq | htl
        · exact absurd hEq.symm he
        · rw [hy.2]
          exact mem_list_insert_ordered.mpr (Or.inr htl)
  · have hcr : thread_create nm p st = some (st.next_tid, { st with free_pages := rest, next_tid := st.next_tid + 1, ready_list := list_insert_ordered thread_prio_cmp { init_rec page nm p with tid := st.next_tid, status := THREAD_READY } st.ready_list }) := by
      simp [thread_create, hfp, hinit, thread_unblock, init_rec, hlt]
    refine ⟨init_rec page nm p, _, hinit, rfl, hcr, fun _ => ⟨rfl, ?_⟩, fun hc => absurd hc hlt⟩
    exact mem_list_insert_ordered.mpr (Or.inl rfl)

/-- C4 witness: creating a priority-40 thread from the priority-31 main
thread makes the caller yield to it: the new thread runs and the caller
waits in the ready list. -/
theorem thread_create_contract_witness :
    ∃ t st3, init_thread 8 "w" 40 = some t ∧ t.status = THREAD_BLOCKED ∧
      thread_create "w" 40 st0 = some (st0.next_tid, st3) ∧
      { st0.current with status := THREAD_READY } ∈ st3.ready_list ∧
      st0.current.priority < st3.current.priority := by
  obtain ⟨t, st3, h1, h2, h3, _, h5⟩ :=
    thread_create_contract "w" 40 st0 8 [] (by decide) (by decide)
      (by decide) (by decide)
  obtain ⟨h6, h7, _⟩ := h5 (by decide)
  exact ⟨t, st3, h1, h2, h3, h6, h7⟩

theorem do_schedule_free (s : thread_status) (st : KState) :
    (do_schedule s st).free_pages =
      st.free_pages ++ st.destruction_req.map (fun t => t.block) := by
  unfold do_schedule
  exact (schedule_frame _).2.1

theorem schedule_dreq_append (st : KState)
    (hdy : st.current.status = THREAD_DYING)
    (hninit : st.current.block ≠ st.initial_block)
    (hnn : st.current.block ≠ (next_thread_to_run st).1.block) :
    (schedule st).destruction_req = st.destruction_req ++ [st.current] := by
  unfold schedule
  simp [hdy, hninit, hnn]

/-- C6 counterexample: a non-initial thread exits (its page is queued on
the destruction list), then the next thread performs a sleep.  The
sleep's thread_block goes through schedule without do_schedule, so a
scheduling decision happens (the idle thread is picked to run) while the
destruction list is still non-empty and the exited thread's page 7 is
still unfreed: the list is not drained at the start of every next
scheduling decision. -/
theorem deferred_destruction_counterexample :
    (thread_sleep 100 (do_schedule THREAD_DYING stC6)).current.block =
      stC6.idle.block ∧
    (thread_sleep 100 (do_schedule THREAD_DYING stC6)).destruction_req ≠ [] ∧
    (7 : Nat) ∉ (thread_sleep 100 (do_schedule THREAD_DYING stC6)).free_pages := by
  refine ⟨?_, ?_, ?_⟩ <;> decide

/-- C6 amended: when a non-initial running thread exits through
do_schedule (THREAD_DYING) and switches away, its page is appended to
the destruction list and is not freed by that call; every page on the
destruction list is freed at the start of the next scheduling decision
that goes through do_schedule (thread_yield, thread_exit, the create
path) — decisions taken through thread_block do not drain the list —
so the exited page is in any case never freed before at least one
subsequent scheduling decision has occurred. -/
theorem deferred_destruction (st : KState) (s2 : thread_status)
    (hni : st.current.block ≠ st.idle.block)
    (hnr : ∀ t ∈ st.ready_list, st.current.block ≠ t.block)
    (hnf : st.current.block ∉ st.free_pages)
    (hnd : ∀ t ∈ st.destruction_req, st.current.block ≠ t.block)
    (hninit : st.current.block ≠ st.initial_block) :
    ({ st.current with status := THREAD_DYING } ∈
        (do_schedule THREAD_DYING st).destruction_req) ∧
    st.current.block ∉ (do_schedule THREAD_DYING st).free_pages ∧
    (∀ b ∈ (do_schedule THREAD_DYING st).destruction_req.map (fun t => t.block),
      b ∈ (do_schedule s2 (do_schedule THREAD_DYING st)).free_pages) ∧
    st.current.block ∈
      (do_schedule s2 (do_schedule THREAD_DYING st)).free_pages := by
  have hdq1 : (do_schedule THREAD_DYING st).destruction_req =
      [{ st.current with status := THREAD_DYING }] := by
    unfold do_schedule
    rw [schedule_dreq_append]
    · simp
    · rfl
    · exact hninit
    · unfold next_thread_to_run
      cases hr : st.ready_list with
      | nil =>
        simp only [hr]
        exact hni
      | cons h tl =>
        simp only [hr]
        exact hnr h (by rw [hr]; exact List.mem_cons_self h tl)
  have hfree1 : st.current.block ∉ (do_schedule THREAD_DYING st).free_pages := by
    rw [do_schedule_free]
    intro hmem
    rcases List.mem_append.mp hmem with hmem1 | hmem2
    · exact hnf hmem1
    · obtain ⟨t, htd, htb⟩ := List.mem_map.mp hmem2
      exact hnd t htd htb.symm
  have hdrain : ∀ b ∈ (do_schedule THREAD_DYING st).destruction_req.map
      (fun t => t.block),
      b ∈ (do_schedule s2 (do_schedule THREAD_DYING st)).free_pages := by
    intro b hb
    rw [do_schedule_free]
    exact List.mem_append.mpr (Or.inr hb)
  refine ⟨?_, hfree1, hdrain, ?_⟩
  · rw [hdq1]
    exact List.mem_cons_self _ _
  · refine hdrain st.current.block ?_
    rw [hdq1]
    simp

/-- C6 amended witness: after the page-7 thread exits, its page sits on
the destruction list unfreed, and the next do_schedule decision frees
it. -/
theorem deferred_destruction_witness :
    ({ stC6.current with status := THREAD_DYING } ∈
        (do_schedule THREAD_DYING stC6).destruction_req) ∧
    stC6.current.block ∉ (do_schedule THREAD_DYING stC6).free_pages ∧
    stC6.current.block ∈
      (do_schedule THREAD_READY (do_schedule THREAD_DYING stC6)).free_pages := by
  obtain ⟨h1, h2, _, h4⟩ := deferred_destruction stC6 THREAD_READY
    (by decide) (by decide) (by decide) (by decide) (by decide)
  exact ⟨h1, h2, h4⟩
